import Mathlib

/-!
Verification of the distributed Game of Life system (worker / broker /
controller).  The definitions below are a shallow embedding of the Go
sources: `Worker.ProcessPart` (worker), `Broker.ProcessTurn` (broker),
`countLiveNeighbors` and `ProcessTurnLocal` (the local single-process
variant), and the distributor's turn loop.  Cells carry their Go `uint8`
value as a natural number: `255` is alive, `0` is dead.
-/

set_option maxRecDepth 4000

namespace Dis

/-- Cell state, carrying the Go `uint8` value: `255` = alive, `0` = dead. -/
abbrev Cell := Nat

/-- A grid (`[][]uint8` in the source): a list of rows of cells. -/
abbrev Grid := List (List Cell)

/-- Task sent from broker to worker: a band `[StartY, EndY)` plus the
buffer `WorldPart` holding the band's rows and its halo rows.  Fields are
Go `int`, so they are embedded as `Int`. -/
structure Task where
  StartY : Int
  EndY : Int
  WorldPart : Grid
deriving DecidableEq

/-- Read `world[y][x]`; out-of-range reads default to `0` (every read is
in bounds at the uses covered by the claims' preconditions). -/
def cellAt (world : Grid) (y x : Nat) : Cell :=
  (world.getD y []).getD x 0

/-- Eight neighbor offsets `(dy, dx)` in the worker's loop order: `dy`
outer from `-1` to `1`, `dx` inner from `-1` to `1`, skipping `(0, 0)`. -/
def neighborOffsets : List (Int × Int) :=
  [(-1, -1), (-1, 0), (-1, 1), (0, -1), (0, 1), (1, -1), (1, 0), (1, 1)]

/-- Neighbor count of the worker's inner loops (`Worker.ProcessPart`):
vertical neighbors are read from the buffer behind the out-of-range guard
`ny < 0 || ny >= len(t.WorldPart)`, horizontal neighbors wrap with
`nx = (x + dx + width) % width`.  The Go `%` agrees with `Int.emod` here
because the dividend `x + dx + width` is nonnegative whenever the loop
body runs (`x < width`). -/
def countNeighborsPart (wp : Grid) (srcY x width : Nat) : Nat :=
  (neighborOffsets.filter (fun p =>
    let ny : Int := (srcY : Int) + p.1
    if ny < 0 ∨ (wp.length : Int) ≤ ny then false
    else
      cellAt wp ny.toNat ((((x : Int) + p.2 + width) % (width : Int)).toNat) == 255)).length

/-- Transition branch shared verbatim by `Worker.ProcessPart` and
`ProcessTurnLocal`: live cell survives on 2 or 3 neighbors, dead cell is
born on exactly 3. -/
def golRule (cell : Cell) (neighbors : Nat) : Cell :=
  if cell = 255 then
    if neighbors = 2 ∨ neighbors = 3 then 255 else 0
  else
    if neighbors = 3 then 255 else 0

/-- One output row of `Worker.ProcessPart`: the inner `x` loop applied at
buffer row `srcY`. -/
def processRow (wp : Grid) (srcY width : Nat) : List Cell :=
  (List.range width).map fun x =>
    golRule (cellAt wp srcY x) (countNeighborsPart wp srcY x width)

/-- Embedding of `Worker.ProcessPart` (`src/unnamed/part_000`): validate
the task, then map buffer rows `1 .. height` through the Game of Life
rule.  The Go locals `height := t.EndY - t.StartY` and
`width := len(t.WorldPart[0])` are inlined; the `*reply` out-parameter
becomes the `Except.ok` payload. -/
def ProcessPart (t : Task) : Except String Grid :=
  if t.EndY - t.StartY ≤ 0 then Except.error ("invalid task: height <= 0")
  else if (t.WorldPart.length : Int) < t.EndY - t.StartY + 2 then
    Except.error ("invalid task: worldPart too small")
  else
    Except.ok ((List.range (t.EndY - t.StartY).toNat).map fun y =>
      processRow t.WorldPart (y + 1) (t.WorldPart.getD 0 []).length)

/-- Argument struct of `Broker.ProcessTurn`. -/
structure WorldParams where
  ImageWidth : Nat
  ImageHeight : Nat
  World : Grid
deriving DecidableEq

/-- Band size `rowsPerWorker := params.ImageHeight / numWorkers` (Go
integer division). -/
def rowsPerWorker (H N : Nat) : Nat := H / N

/-- Band start for worker `i`: `startY := i * rowsPerWorker`. -/
def bandStart (H N i : Nat) : Nat := i * rowsPerWorker H N

/-- Band end for worker `i`: `endY := startY + rowsPerWorker`, except the
last worker, which takes every remaining row (`endY = params.ImageHeight`). -/
def bandEnd (H N i : Nat) : Nat :=
  if i = N - 1 then H else bandStart H N i + rowsPerWorker H N

/-- Band buffer built by `Broker.ProcessTurn` in `src/unnamed/part_001`:
core rows copied to positions `1 .. height`, global row
`(startY - 1 + H) % H` of the full input grid prepended at position `0`,
and global row `endY % H` appended at position `height + 1`. -/
def buildWorldPart (world : Grid) (H startY endY : Nat) : Grid :=
  (world.getD ((((startY : Int) - 1 + H) % (H : Int)).toNat) [])
    :: ((world.drop startY).take (endY - startY) ++ [world.getD (endY % H) []])

/-- Fan-in loop of `Broker.ProcessTurn`:
`newWorld[t.StartY+y] = workerResult[y]` for each returned row. -/
def mergeBand (newWorld : Grid) (startY : Nat) : Grid → Grid
  | [] => newWorld
  | r :: rs => mergeBand (newWorld.set startY r) (startY + 1) rs

/-- Embedding of `Broker.ProcessTurn` (`src/unnamed/part_001`, lines
124-210): zero-initialize the new grid, fail when no worker is
registered, split `[0, H)` into `N` bands in registry order, build each
band's halo buffer from the full input grid, run each band through the
worker and merge the returned rows at the band's row offset.  `ok i`
abstracts whether worker `i`'s RPC call succeeds at the transport level;
a failed call (transport failure or an error returned by `ProcessPart`)
is logged and skipped, exactly as in the source.  The goroutine fan-out
with `resultMu` is modelled as a fold in registry order: the merged row
ranges are pairwise disjoint, so the linearization order cannot affect
the result.  The mutex-guarded `currentWorld` cache is omitted (no claim
refers to it).  The per-worker goroutine body is the named function
`brokerStep` below; the zero-initialized `newWorld` is the fold's start
value. -/
def brokerStep (world : Grid) (H N : Nat) (ok : Nat → Bool) (nw : Grid) (i : Nat) : Grid :=
  if ok i then
    match ProcessPart ⟨bandStart H N i, bandEnd H N i,
        buildWorldPart world H (bandStart H N i) (bandEnd H N i)⟩ with
    | Except.ok rows => mergeBand nw (bandStart H N i) rows
    | Except.error _ => nw
  else nw

/-- Embedding of `Broker.ProcessTurn`; see the comment on `brokerStep`. -/
def ProcessTurn (params : WorldParams) (N : Nat) (ok : Nat → Bool) : Except String Grid :=
  if N = 0 then Except.error ("no workers available")
  else
    Except.ok ((List.range N).foldl (brokerStep params.World params.ImageHeight N ok)
      (List.replicate params.ImageHeight (List.replicate params.ImageWidth 0)))

/-- Modelled from the spec: the toroidal neighbor count of cell `(x, y)`,
both coordinates wrapping modulo the grid dimensions (spec section 3,
"the grid is toroidal: edges wrap both horizontally and vertically").
This is the spec-side reference for the refinement claim; the code-side
counts are `countNeighborsPart` and `countLiveNeighbors`. -/
def toroidalNeighbors (world : Grid) (W H y x : Nat) : Nat :=
  (neighborOffsets.filter (fun p =>
    cellAt world ((((y : Int) + p.1 + H) % (H : Int)).toNat)
      ((((x : Int) + p.2 + W) % (W : Int)).toNat) == 255)).length

/-- Modelled from the spec: one row of the unpartitioned toroidal step. -/
def stepRow (world : Grid) (W H y : Nat) : List Cell :=
  (List.range W).map fun x =>
    golRule (cellAt world y x) (toroidalNeighbors world W H y x)

/-- Modelled from the spec: "computing the entire grid's next toroidal
generation in one unpartitioned pass" (spec section 8, merge
equivalence).  Reference side of the refinement claim. -/
def golStep (world : Grid) (W H : Nat) : Grid :=
  (List.range H).map fun y => stepRow world W H y

/-- Offset table `dirs` of `countLiveNeighbors` (`distributor.go`); the
pairs are `(dx, dy)` in source order. -/
def dirs : List (Int × Int) :=
  [(-1, -1), (-1, 0), (-1, 1), (0, -1), (0, 1), (1, -1), (1, 0), (1, 1)]

/-- Embedding of `countLiveNeighbors` (`distributor.go`, the local
variant): a bounds-checked neighbor count.  An out-of-range neighbor
coordinate (`nx` or `ny` outside the grid) is skipped; there is no
wraparound in either direction. -/
def countLiveNeighbors (world : Grid) (x y : Int) (width height : Int) : Nat :=
  (dirs.filter (fun d =>
    let nx := x + d.1
    let ny := y + d.2
    if 0 ≤ nx ∧ nx < width ∧ 0 ≤ ny ∧ ny < height then
      cellAt world ny.toNat nx.toNat == 255
    else false)).length

/-- Embedding of `ProcessTurnLocal` (`LocalBroker`, first section of
`src/unnamed/part_001`): the single-process step served by the local RPC
broker; per-cell neighbor counts come from `countLiveNeighbors`.  The
`sampleWorld` global update is omitted (no claim refers to it). -/
def ProcessTurnLocal (params : WorldParams) : Grid :=
  (List.range params.ImageHeight).map fun y =>
    (List.range params.ImageWidth).map fun x =>
      golRule (cellAt params.World y x)
        (countLiveNeighbors params.World x y params.ImageWidth params.ImageHeight)

/-- Controller-owned run state: the authoritative grid and the turn
counter of `distributor` (`gol/distributor.go`). -/
structure ControllerState where
  world : Grid
  turn : Nat
deriving DecidableEq

/-- Distributor start: `turn := 0`. -/
def initController (world : Grid) : ControllerState :=
  { world := world, turn := 0 }

/-- One pass of the distributor's turn body (`gol/distributor.go`, lines
204-236): call `Broker.ProcessTurn`; on success replace the world and
increment `turn` by exactly one; on error the call's failure is
propagated and the counter is untouched.  The turn counter is written
nowhere else in the source (the `s`/`q`/`k`/`p` key handlers only read
it). -/
def advanceTurnCtrl (W H N : Nat) (ok : Nat → Bool) (s : ControllerState) :
    Except String ControllerState :=
  match ProcessTurn ⟨W, H, s.world⟩ N ok with
  | Except.ok newWorld => Except.ok { world := newWorld, turn := s.turn + 1 }
  | Except.error e => Except.error e

/-- Observable effect of one turn-loop iteration on the controller state:
on a failed `ProcessTurn` the distributor returns, leaving `world` and
`turn` exactly as they were. -/
def runStep (W H N : Nat) (ok : Nat → Bool) (s : ControllerState) : ControllerState :=
  match advanceTurnCtrl W H N ok s with
  | Except.ok next => next
  | Except.error _ => s

/-- K consecutive successful turns starting from `s`; `none` as soon as
one turn fails. -/
def advanceK (W H N : Nat) (ok : Nat → Bool) : Nat → ControllerState → Option ControllerState
  | 0, s => some s
  | k + 1, s =>
    match advanceTurnCtrl W H N ok s with
    | Except.ok next => advanceK W H N ok k next
    | Except.error _ => none


/-- Decidable equality for RPC results, used to evaluate the embedded
operations at concrete inputs. -/
instance instDecEqExcept {e a : Type} [DecidableEq e] [DecidableEq a] :
    DecidableEq (Except e a)
  | Except.ok x, Except.ok y =>
    if h : x = y then isTrue (by rw [h]) else isFalse (by simp [h])
  | Except.ok _, Except.error _ => isFalse (by simp)
  | Except.error _, Except.ok _ => isFalse (by simp)
  | Except.error x, Except.error y =>
    if h : x = y then isTrue (by rw [h]) else isFalse (by simp [h])

/-! Helper lemmas: list access, integer modulus, band arithmetic. -/

lemma int_emod_toNat (a : Int) (H : Nat) (ha : 0 ≤ a) :
    (a % (H : Int)).toNat = a.toNat % H := by
  lift a to ℕ using ha
  rw [← Int.natCast_mod, Int.toNat_natCast, Int.toNat_natCast]

lemma getD_map_range (f : Nat → List Cell) (n k : Nat) (hk : k < n) :
    ((List.range n).map f).getD k [] = f k := by
  rw [List.getD_eq_getElem?_getD, List.getElem?_map, List.getElem?_range hk]
  rfl

lemma getD_map_range0 (f : Nat → Nat) (n k : Nat) (hk : k < n) :
    ((List.range n).map f).getD k 0 = f k := by
  rw [List.getD_eq_getElem?_getD, List.getElem?_map, List.getElem?_range hk]
  rfl

lemma getD_replicate (r : List Cell) (n g : Nat) (hg : g < n) :
    (List.replicate n r).getD g [] = r := by
  rw [List.getD_eq_getElem?_getD, List.getElem?_replicate, if_pos hg]
  rfl

lemma row_width (world : Grid) (W j : Nat) (hrows : ∀ r ∈ world, r.length = W)
    (hj : j < world.length) : (world.getD j []).length = W := by
  rw [List.getD_eq_getElem world [] hj]
  exact hrows _ (List.getElem_mem hj)

lemma emod_toNat_lt (x : Int) (W : Nat) (hW : 1 ≤ W) : (x % (W : Int)).toNat < W := by
  have h1 : (0 : Int) < (W : Int) := by exact_mod_cast hW
  have h2 := Int.emod_nonneg x (by omega : (W : Int) ≠ 0)
  have h3 := Int.emod_lt_of_pos x h1
  omega

lemma bandStart_zero (H N : Nat) : bandStart H N 0 = 0 := Nat.zero_mul _

lemma bandEnd_last (H N : Nat) : bandEnd H N (N - 1) = H := if_pos rfl

lemma bandEnd_of_lt (H N i : Nat) (h : i + 1 < N) :
    bandEnd H N i = (i + 1) * rowsPerWorker H N := by
  unfold bandEnd
  rw [if_neg (by omega)]
  unfold bandStart
  ring

lemma bandStart_succ (H N i : Nat) (h : i + 1 < N) :
    bandEnd H N i = bandStart H N (i + 1) :=
  bandEnd_of_lt H N i h

lemma rowsPerWorker_pos (H N : Nat) (hN : 1 ≤ N) (hNH : N ≤ H) :
    1 ≤ rowsPerWorker H N :=
  (Nat.one_le_div_iff (by omega)).mpr hNH

lemma mul_rowsPerWorker_le (H N i : Nat) (hi : i ≤ N) : i * rowsPerWorker H N ≤ H :=
  calc i * rowsPerWorker H N ≤ N * rowsPerWorker H N := Nat.mul_le_mul_right _ hi
  _ = rowsPerWorker H N * N := Nat.mul_comm _ _
  _ ≤ H := Nat.div_mul_le_self H N

lemma bandStart_le_bandEnd (H N i : Nat) (hi : i < N) :
    bandStart H N i ≤ bandEnd H N i := by
  unfold bandEnd
  by_cases h : i = N - 1
  · rw [if_pos h]
    exact le_trans (Nat.mul_le_mul_right _ (by omega)) (mul_rowsPerWorker_le H N N le_rfl)
  · rw [if_neg h]
    omega

lemma bandEnd_le (H N i : Nat) (hi : i < N) : bandEnd H N i ≤ H := by
  unfold bandEnd
  by_cases h : i = N - 1
  · rw [if_pos h]
  · rw [if_neg h]
    have h1 : bandStart H N i + rowsPerWorker H N = (i + 1) * rowsPerWorker H N := by
      unfold bandStart
      ring
    rw [h1]
    exact mul_rowsPerWorker_le H N (i + 1) (by omega)

lemma bandStart_lt_bandEnd (H N i : Nat) (hN : 1 ≤ N) (hNH : N ≤ H) (hi : i < N) :
    bandStart H N i < bandEnd H N i := by
  have hr := rowsPerWorker_pos H N hN hNH
  unfold bandEnd
  by_cases h : i = N - 1
  · rw [if_pos h]
    subst h
    have h1 : (N - 1) * rowsPerWorker H N + rowsPerWorker H N = N * rowsPerWorker H N := by
      rw [← Nat.succ_mul]
      congr 1
      omega
    have h2 : N * rowsPerWorker H N = rowsPerWorker H N * N := Nat.mul_comm _ _
    have h3 := Nat.div_mul_le_self H N
    unfold bandStart
    unfold rowsPerWorker at h1 h2 h3 hr ⊢
    omega
  · rw [if_neg h]
    omega

lemma bands_disjoint (H N i j : Nat) (hij : i < j) (hj : j < N) :
    bandEnd H N i ≤ bandStart H N j := by
  rw [bandEnd_of_lt H N i (by omega)]
  exact Nat.mul_le_mul_right _ (by omega)

lemma bands_cover (H N g : Nat) (hN : 1 ≤ N) (hg : g < H) :
    ∃ i, i < N ∧ bandStart H N i ≤ g ∧ g < bandEnd H N i := by
  rcases Nat.eq_zero_or_pos (rowsPerWorker H N) with h0 | h0
  · refine ⟨N - 1, by omega, ?_, ?_⟩
    · show (N - 1) * rowsPerWorker H N ≤ g
      rw [h0, Nat.mul_zero]
      omega
    · rw [bandEnd_last]
      exact hg
  · by_cases hc : g / rowsPerWorker H N < N - 1
    · refine ⟨g / rowsPerWorker H N, by omega, Nat.div_mul_le_self g _, ?_⟩
      rw [bandEnd_of_lt H N _ (by omega)]
      have h1 := Nat.div_add_mod g (rowsPerWorker H N)
      have h2 := Nat.mod_lt g h0
      have h3 : (g / rowsPerWorker H N + 1) * rowsPerWorker H N
          = rowsPerWorker H N * (g / rowsPerWorker H N) + rowsPerWorker H N := by ring
      omega
    · refine ⟨N - 1, by omega, ?_, ?_⟩
      · show (N - 1) * rowsPerWorker H N ≤ g
        calc (N - 1) * rowsPerWorker H N ≤ g / rowsPerWorker H N * rowsPerWorker H N :=
          Nat.mul_le_mul_right _ (by omega)
        _ ≤ g := Nat.div_mul_le_self g _
      · rw [bandEnd_last]
        exact hg

lemma mergeBand_length (rows : Grid) : ∀ (nw : Grid) (s : Nat),
    (mergeBand nw s rows).length = nw.length := by
  induction rows with
  | nil => intro nw s; rfl
  | cons r rs ih =>
    intro nw s
    show (mergeBand (nw.set s r) (s + 1) rs).length = nw.length
    rw [ih, List.length_set]

lemma mergeBand_getD_of_lt (rows : Grid) : ∀ (nw : Grid) (s g : Nat), g < s →
    (mergeBand nw s rows).getD g [] = nw.getD g [] := by
  induction rows with
  | nil => intro nw s g _; rfl
  | cons r rs ih =>
    intro nw s g hg
    show (mergeBand (nw.set s r) (s + 1) rs).getD g [] = nw.getD g []
    rw [ih _ _ _ (by omega)]
    rw [List.getD_eq_getElem?_getD, List.getD_eq_getElem?_getD, List.getElem?_set,
      if_neg (by omega)]

lemma mergeBand_getD_of_ge (rows : Grid) : ∀ (nw : Grid) (s g : Nat), s + rows.length ≤ g →
    (mergeBand nw s rows).getD g [] = nw.getD g [] := by
  induction rows with
  | nil => intro nw s g _; rfl
  | cons r rs ih =>
    intro nw s g hg
    rw [List.length_cons] at hg
    show (mergeBand (nw.set s r) (s + 1) rs).getD g [] = nw.getD g []
    rw [ih _ _ _ (by omega)]
    rw [List.getD_eq_getElem?_getD, List.getD_eq_getElem?_getD, List.getElem?_set,
      if_neg (by omega)]

lemma mergeBand_getD_of_mem (rows : Grid) : ∀ (nw : Grid) (s g : Nat),
    s ≤ g → g < s + rows.length → s + rows.length ≤ nw.length →
    (mergeBand nw s rows).getD g [] = rows.getD (g - s) [] := by
  induction rows with
  | nil =>
    intro nw s g h1 h2 _
    rw [List.length_nil] at h2
    omega
  | cons r rs ih =>
    intro nw s g h1 h2 h3
    rw [List.length_cons] at h2 h3
    show (mergeBand (nw.set s r) (s + 1) rs).getD g [] = (r :: rs).getD (g - s) []
    rcases Nat.eq_or_lt_of_le h1 with heq | hlt
    · subst heq
      rw [mergeBand_getD_of_lt rs _ _ _ (by omega)]
      rw [List.getD_eq_getElem?_getD, List.getElem?_set, if_pos rfl,
        if_pos (by omega), Nat.sub_self]
      rfl
    · rw [ih _ _ _ (by omega) (by omega) (by rw [List.length_set]; omega)]
      have hsub : g - s = (g - (s + 1)) + 1 := by omega
      rw [hsub]
      rfl

lemma buildWorldPart_length (world : Grid) (H s e : Nat) (hse : s ≤ e)
    (he : e ≤ world.length) :
    (buildWorldPart world H s e).length = (e - s) + 2 := by
  unfold buildWorldPart
  simp only [List.length_cons, List.length_append, List.length_take, List.length_drop,
    List.length_nil]
  omega

lemma buildWorldPart_getD_zero (world : Grid) (H s e : Nat) :
    (buildWorldPart world H s e).getD 0 [] =
      world.getD ((((s : Int) - 1 + H) % (H : Int)).toNat) [] := rfl

lemma buildWorldPart_getD_core (world : Grid) (H s e k : Nat)
    (hk : k < e - s) (he : e ≤ world.length) :
    (buildWorldPart world H s e).getD (k + 1) [] = world.getD (s + k) [] := by
  unfold buildWorldPart
  rw [List.getD_eq_getElem?_getD, List.getD_eq_getElem?_getD, List.getElem?_cons_succ,
    List.getElem?_append_left (by rw [List.length_take, List.length_drop]; omega),
    List.getElem?_take_of_lt hk, List.getElem?_drop, List.getD_eq_getElem?_getD]

lemma buildWorldPart_getD_last (world : Grid) (H s e : Nat) (hse : s ≤ e)
    (he : e ≤ world.length) :
    (buildWorldPart world H s e).getD ((e - s) + 1) [] = world.getD (e % H) [] := by
  unfold buildWorldPart
  rw [List.getD_eq_getElem?_getD, List.getElem?_cons_succ,
    List.getElem?_append_right (by rw [List.length_take, List.length_drop]; omega)]
  rw [List.length_take, List.length_drop]
  have h1 : e - s - min (e - s) (world.length - s) = 0 := by omega
  rw [h1]
  rfl

lemma wp_row_m1 (world : Grid) (H s e y : Nat) (hH : 1 ≤ H) (hlenw : world.length = H)
    (hse : s < e) (heH : e ≤ H) (hy : y < e - s) :
    (buildWorldPart world H s e).getD y [] =
      world.getD ((((s + y : Nat) : Int) + (-1) + H) % (H : Int)).toNat [] := by
  rcases Nat.eq_zero_or_pos y with hy0 | hy0
  · subst hy0
    rw [buildWorldPart_getD_zero]
    have h1 : ((s + 0 : Nat) : Int) + (-1) + H = (s : Int) - 1 + H := by omega
    rw [h1]
  · obtain ⟨w, rfl⟩ : ∃ w, y = w + 1 := ⟨y - 1, by omega⟩
    rw [buildWorldPart_getD_core world H s e w (by omega) (by omega)]
    have h1 : ((s + (w + 1) : Nat) : Int) + (-1) + H = ((s + w + H : Nat) : Int) := by omega
    rw [h1, int_emod_toNat _ _ (Int.natCast_nonneg _), Int.toNat_natCast,
      Nat.add_mod_right, Nat.mod_eq_of_lt (by omega)]

lemma wp_row_0 (world : Grid) (H s e y : Nat) (hH : 1 ≤ H) (hlenw : world.length = H)
    (hse : s < e) (heH : e ≤ H) (hy : y < e - s) :
    (buildWorldPart world H s e).getD (y + 1) [] =
      world.getD ((((s + y : Nat) : Int) + 0 + H) % (H : Int)).toNat [] := by
  rw [buildWorldPart_getD_core world H s e y hy (by omega)]
  have h1 : ((s + y : Nat) : Int) + 0 + H = ((s + y + H : Nat) : Int) := by omega
  rw [h1, int_emod_toNat _ _ (Int.natCast_nonneg _), Int.toNat_natCast,
    Nat.add_mod_right, Nat.mod_eq_of_lt (by omega)]

lemma wp_row_p1 (world : Grid) (H s e y : Nat) (hH : 1 ≤ H) (hlenw : world.length = H)
    (hse : s < e) (heH : e ≤ H) (hy : y < e - s) :
    (buildWorldPart world H s e).getD (y + 2) [] =
      world.getD ((((s + y : Nat) : Int) + 1 + H) % (H : Int)).toNat [] := by
  have h1 : ((s + y : Nat) : Int) + 1 + H = ((s + y + 1 + H : Nat) : Int) := by omega
  rw [h1, int_emod_toNat _ _ (Int.natCast_nonneg _), Int.toNat_natCast, Nat.add_mod_right]
  by_cases hc : y + 1 < e - s
  · rw [show y + 2 = y + 1 + 1 from rfl,
      buildWorldPart_getD_core world H s e (y + 1) hc (by omega),
      Nat.mod_eq_of_lt (by omega : s + y + 1 < H)]
    congr 1
  · rw [show y + 2 = (e - s) + 1 from by omega,
      buildWorldPart_getD_last world H s e (by omega) (by omega),
      show s + y + 1 = e from by omega]

lemma count_eq_toroidal (world : Grid) (W H s e y x : Nat)
    (hH : 1 ≤ H) (hlenw : world.length = H) (hse : s < e) (heH : e ≤ H) (hy : y < e - s) :
    countNeighborsPart (buildWorldPart world H s e) (y + 1) x W =
      toroidalNeighbors world W H (s + y) x := by
  have hwp : (buildWorldPart world H s e).length = (e - s) + 2 :=
    buildWorldPart_length world H s e (by omega) (by omega)
  unfold countNeighborsPart toroidalNeighbors
  congr 1
  apply List.filter_congr
  intro p hp
  fin_cases hp
  · dsimp only
    rw [hwp, if_neg (by push_cast; omega),
      show (((y + 1 : Nat) : Int) + (-1)).toNat = y from by omega]
    simp only [cellAt]
    rw [wp_row_m1 world H s e y hH hlenw hse heH hy]
  · dsimp only
    rw [hwp, if_neg (by push_cast; omega),
      show (((y + 1 : Nat) : Int) + (-1)).toNat = y from by omega]
    simp only [cellAt]
    rw [wp_row_m1 world H s e y hH hlenw hse heH hy]
  · dsimp only
    rw [hwp, if_neg (by push_cast; omega),
      show (((y + 1 : Nat) : Int) + (-1)).toNat = y from by omega]
    simp only [cellAt]
    rw [wp_row_m1 world H s e y hH hlenw hse heH hy]
  · dsimp only
    rw [hwp, if_neg (by push_cast; omega),
      show (((y + 1 : Nat) : Int) + 0).toNat = y + 1 from by omega]
    simp only [cellAt]
    rw [wp_row_0 world H s e y hH hlenw hse heH hy]
  · dsimp only
    rw [hwp, if_neg (by push_cast; omega),
      show (((y + 1 : Nat) : Int) + 0).toNat = y + 1 from by omega]
    simp only [cellAt]
    rw [wp_row_0 world H s e y hH hlenw hse heH hy]
  · dsimp only
    rw [hwp, if_neg (by push_cast; omega),
      show (((y + 1 : Nat) : Int) + 1).toNat = y + 2 from by omega]
    simp only [cellAt]
    rw [wp_row_p1 world H s e y hH hlenw hse heH hy]
  · dsimp only
    rw [hwp, if_neg (by push_cast; omega),
      show (((y + 1 : Nat) : Int) + 1).toNat = y + 2 from by omega]
    simp only [cellAt]
    rw [wp_row_p1 world H s e y hH hlenw hse heH hy]
  · dsimp only
    rw [hwp, if_neg (by push_cast; omega),
      show (((y + 1 : Nat) : Int) + 1).toNat = y + 2 from by omega]
    simp only [cellAt]
    rw [wp_row_p1 world H s e y hH hlenw hse heH hy]

lemma processRow_eq_stepRow (world : Grid) (W H s e y : Nat)
    (hH : 1 ≤ H) (hlenw : world.length = H) (hse : s < e) (heH : e ≤ H) (hy : y < e - s) :
    processRow (buildWorldPart world H s e) (y + 1) W = stepRow world W H (s + y) := by
  unfold processRow stepRow
  apply List.map_eq_map_iff.mpr
  intro x hx
  congr 1
  · show cellAt (buildWorldPart world H s e) (y + 1) x = cellAt world (s + y) x
    simp only [cellAt]
    rw [buildWorldPart_getD_core world H s e y hy (by omega)]
  · exact count_eq_toroidal world W H s e y x hH hlenw hse heH hy

lemma processPart_ok (s e : Nat) (wp : Grid) (hse : s < e) (hlen : e - s + 2 ≤ wp.length) :
    ProcessPart ⟨(s : Int), (e : Int), wp⟩ =
      Except.ok ((List.range (e - s)).map fun y =>
        processRow wp (y + 1) (wp.getD 0 []).length) := by
  unfold ProcessPart
  dsimp only
  rw [if_neg (by omega), if_neg (by omega),
    show ((e : Int) - (s : Int)).toNat = e - s from by omega]

lemma brokerStep_spec (world : Grid) (W H N : Nat) (ok : Nat → Bool) (i : Nat) (nw : Grid)
    (hW : 1 ≤ W) (hN : 1 ≤ N) (hNH : N ≤ H) (hi : i < N)
    (hlenw : world.length = H) (hrows : ∀ r ∈ world, r.length = W)
    (hnw : nw.length = H) :
    (brokerStep world H N ok nw i).length = H ∧
    (∀ g, (g < bandStart H N i ∨ bandEnd H N i ≤ g) →
      (brokerStep world H N ok nw i).getD g [] = nw.getD g []) ∧
    (∀ g, bandStart H N i ≤ g → g < bandEnd H N i →
      (brokerStep world H N ok nw i).getD g [] =
        (if ok i then stepRow world W H g else nw.getD g [])) := by
  have hH : 1 ≤ H := le_trans hN hNH
  have hse : bandStart H N i < bandEnd H N i := bandStart_lt_bandEnd H N i hN hNH hi
  have heH : bandEnd H N i ≤ H := bandEnd_le H N i hi
  have hwplen : (buildWorldPart world H (bandStart H N i) (bandEnd H N i)).length =
      (bandEnd H N i - bandStart H N i) + 2 :=
    buildWorldPart_length world H _ _ (by omega) (by omega)
  have hwidth :
      ((buildWorldPart world H (bandStart H N i) (bandEnd H N i)).getD 0 []).length = W := by
    rw [buildWorldPart_getD_zero]
    exact row_width world W _ hrows (by rw [hlenw]; exact emod_toNat_lt _ H hH)
  have hok := processPart_ok (bandStart H N i) (bandEnd H N i)
    (buildWorldPart world H (bandStart H N i) (bandEnd H N i)) hse (by omega)
  rw [hwidth] at hok
  have hrowslen : ((List.range (bandEnd H N i - bandStart H N i)).map fun y =>
      processRow (buildWorldPart world H (bandStart H N i) (bandEnd H N i)) (y + 1) W).length =
      bandEnd H N i - bandStart H N i := by
    rw [List.length_map, List.length_range]
  unfold brokerStep
  by_cases hoki : ok i
  · rw [if_pos hoki, hok]
    refine ⟨?_, ?_, ?_⟩
    · rw [mergeBand_length, hnw]
    · intro g hg
      rcases hg with hg | hg
      · exact mergeBand_getD_of_lt _ _ _ _ hg
      · exact mergeBand_getD_of_ge _ _ _ _ (by rw [hrowslen]; omega)
    · intro g hg1 hg2
      rw [if_pos hoki]
      rw [mergeBand_getD_of_mem _ _ _ _ hg1 (by rw [hrowslen]; omega)
        (by rw [hrowslen, hnw]; omega)]
      rw [getD_map_range _ _ _ (by omega)]
      have hstep := processRow_eq_stepRow world W H (bandStart H N i) (bandEnd H N i)
        (g - bandStart H N i) hH hlenw hse heH (by omega)
      rw [show bandStart H N i + (g - bandStart H N i) = g from by omega] at hstep
      exact hstep
  · rw [if_neg hoki]
    refine ⟨hnw, fun g _ => rfl, fun g hg1 hg2 => ?_⟩
    rw [if_neg hoki]

lemma foldl_brokerStep (world : Grid) (W H N : Nat) (ok : Nat → Bool)
    (hW : 1 ≤ W) (hN : 1 ≤ N) (hNH : N ≤ H)
    (hlenw : world.length = H) (hrows : ∀ r ∈ world, r.length = W) :
    ∀ k, k ≤ N →
      ((List.range k).foldl (brokerStep world H N ok)
          (List.replicate H (List.replicate W 0))).length = H ∧
      (∀ i, i < N → ∀ g, bandStart H N i ≤ g → g < bandEnd H N i →
        ((List.range k).foldl (brokerStep world H N ok)
            (List.replicate H (List.replicate W 0))).getD g [] =
          (if i < k ∧ ok i then stepRow world W H g else List.replicate W 0)) := by
  intro k
  induction k with
  | zero =>
    intro _
    constructor
    · simp
    · intro i hi g hg1 hg2
      rw [if_neg (by omega)]
      simp only [List.range_zero, List.foldl_nil]
      exact getD_replicate _ _ _ (lt_of_lt_of_le hg2 (bandEnd_le H N i hi))
  | succ k ih =>
    intro hk
    obtain ⟨ihlen, ihval⟩ := ih (by omega)
    rw [List.range_succ, List.foldl_append]
    simp only [List.foldl_cons, List.foldl_nil]
    obtain ⟨hslen, hsout, hsin⟩ :=
      brokerStep_spec world W H N ok k _ hW hN hNH (by omega) hlenw hrows ihlen
    refine ⟨hslen, ?_⟩
    intro i hi g hg1 hg2
    by_cases hik : i = k
    · subst hik
      rw [hsin g hg1 hg2]
      by_cases hoki : ok i
      · rw [if_pos hoki, if_pos ⟨by omega, hoki⟩]
      · rw [if_neg hoki, ihval i hi g hg1 hg2,
          if_neg (fun h => hoki h.2), if_neg (fun h => hoki h.2)]
    · have hdisj : g < bandStart H N k ∨ bandEnd H N k ≤ g := by
        rcases Nat.lt_or_ge i k with hik2 | hik2
        · exact Or.inl (lt_of_lt_of_le hg2 (bands_disjoint H N i k hik2 (by omega)))
        · exact Or.inr (le_trans (bands_disjoint H N k i (by omega) hi) hg1)
      rw [hsout g hdisj, ihval i hi g hg1 hg2]
      have hc2 : i < k ↔ i < k + 1 := by omega
      exact if_congr (and_congr_left' hc2) rfl rfl

lemma processTurn_bands (W H N : Nat) (world : Grid) (ok : Nat → Bool)
    (hW : 1 ≤ W) (hN : 1 ≤ N) (hNH : N ≤ H)
    (hlenw : world.length = H) (hrows : ∀ r ∈ world, r.length = W) :
    ∃ grid, ProcessTurn ⟨W, H, world⟩ N ok = Except.ok grid ∧ grid.length = H ∧
      ∀ i, i < N → ∀ g, bandStart H N i ≤ g → g < bandEnd H N i →
        grid.getD g [] = (if ok i then stepRow world W H g else List.replicate W 0) := by
  obtain ⟨hlen, hval⟩ := foldl_brokerStep world W H N ok hW hN hNH hlenw hrows N le_rfl
  refine ⟨_, ?_, hlen, ?_⟩
  · unfold ProcessTurn
    dsimp only
    rw [if_neg (by omega)]
  · intro i hi g hg1 hg2
    rw [hval i hi g hg1 hg2]
    exact if_congr (and_iff_right hi) rfl rfl

lemma topIdx_eq (s H : Nat) (hH : 1 ≤ H) :
    (((s : Int) - 1 + H) % (H : Int)).toNat = (s + H - 1) % H := by
  rw [show (s : Int) - 1 + H = ((s + H - 1 : Nat) : Int) from by omega,
    int_emod_toNat _ _ (Int.natCast_nonneg _), Int.toNat_natCast]

lemma processPart_ok_int (t : Task) (hh : 0 < t.EndY - t.StartY)
    (hlen : t.EndY - t.StartY + 2 ≤ (t.WorldPart.length : Int)) :
    ProcessPart t = Except.ok ((List.range (t.EndY - t.StartY).toNat).map fun y =>
      processRow t.WorldPart (y + 1) (t.WorldPart.getD 0 []).length) := by
  unfold ProcessPart
  rw [if_neg (by omega), if_neg (by omega)]

/-! Theorems for the claims. -/

/-- C1: for every toroidal grid of width `W ≥ 1` and height `H ≥ 1` and
every worker count `N` with `1 ≤ N ≤ H`, the broker's `ProcessTurn`
(partition into bands, halo rows from the full input grid, per-band
`ProcessPart`, merge at each band's offset) returns exactly the grid
obtained by computing the entire grid's next toroidal generation in one
unpartitioned pass. -/
theorem processTurn_refines_unpartitioned_step (W H N : Nat) (world : Grid)
    (hW : 1 ≤ W) (hN : 1 ≤ N) (hNH : N ≤ H)
    (hlenw : world.length = H) (hrows : ∀ r ∈ world, r.length = W) :
    ProcessTurn ⟨W, H, world⟩ N (fun _ => true) = Except.ok (golStep world W H) := by
  obtain ⟨grid, heq, hlen, hval⟩ :=
    processTurn_bands W H N world (fun _ => true) hW hN hNH hlenw hrows
  rw [heq]
  congr 1
  have hlen2 : (golStep world W H).length = H := by
    simp [golStep]
  apply List.ext_getElem (by rw [hlen, hlen2])
  intro g h1 h2
  have hg : g < H := by rw [hlen] at h1; exact h1
  obtain ⟨i, hi, hg1, hg2⟩ := bands_cover H N g hN hg
  have hrow := hval i hi g hg1 hg2
  rw [if_pos rfl] at hrow
  calc grid[g] = grid.getD g [] := (List.getD_eq_getElem grid [] h1).symm
    _ = stepRow world W H g := hrow
    _ = (golStep world W H)[g] := by
        simp [golStep, List.getElem_map, List.getElem_range]

/-- C1 witness: a concrete 2-by-2 grid split across two workers. -/
theorem processTurn_refines_unpartitioned_step_witness :
    ProcessTurn ⟨2, 2, [[255, 0], [0, 0]]⟩ 2 (fun _ => true) =
      Except.ok (golStep [[255, 0], [0, 0]] 2 2) :=
  processTurn_refines_unpartitioned_step 2 2 2 [[255, 0], [0, 0]]
    (by decide) (by decide) (by decide) (by decide) (by decide)

/-- C2: every band buffer built by the broker has exactly `height + 2`
rows: the band's own rows at positions `1 .. height`, global row
`(startY - 1 + H) % H` first and global row `endY % H` last, both taken
from the full input grid. -/
theorem broker_task_halo_rows (H N i s e : Nat) (world : Grid)
    (hH : 1 ≤ H) (hN : 1 ≤ N) (hi : i < N) (hlenw : world.length = H)
    (hs : s = bandStart H N i) (he : e = bandEnd H N i) :
    (buildWorldPart world H s e).length = (e - s) + 2 ∧
    (buildWorldPart world H s e).getD 0 [] = world.getD ((s + H - 1) % H) [] ∧
    (buildWorldPart world H s e).getD ((e - s) + 1) [] = world.getD (e % H) [] ∧
    (∀ k, 1 ≤ k → k ≤ e - s →
      (buildWorldPart world H s e).getD k [] = world.getD (s + (k - 1)) []) := by
  subst hs he
  have hse : bandStart H N i ≤ bandEnd H N i := bandStart_le_bandEnd H N i hi
  have heH : bandEnd H N i ≤ H := bandEnd_le H N i hi
  refine ⟨buildWorldPart_length world H _ _ hse (by omega), ?_, ?_, ?_⟩
  · rw [buildWorldPart_getD_zero, topIdx_eq _ H hH]
  · exact buildWorldPart_getD_last world H _ _ hse (by omega)
  · intro k hk1 hk2
    obtain ⟨w, rfl⟩ : ∃ w, k = w + 1 := ⟨k - 1, by omega⟩
    rw [buildWorldPart_getD_core world H _ _ w (by omega) (by omega)]
    congr 1

/-- C2 witness: band 0 of a 4-row grid split across two workers; the
prepended halo row is the wrapped-around global row 3. -/
theorem broker_task_halo_rows_witness :
    (buildWorldPart [[10], [20], [30], [40]] 4 0 2).getD 0 [] =
      [[10], [20], [30], [40]].getD ((0 + 4 - 1) % 4) [] ∧
    (buildWorldPart [[10], [20], [30], [40]] 4 0 2).length = (2 - 0) + 2 :=
  ⟨(broker_task_halo_rows 4 2 0 0 2 [[10], [20], [30], [40]] (by decide) (by decide)
      (by decide) (by decide) (by decide) (by decide)).2.1,
   (broker_task_halo_rows 4 2 0 0 2 [[10], [20], [30], [40]] (by decide) (by decide)
      (by decide) (by decide) (by decide) (by decide)).1⟩

/-- C4: for every `H ≥ 1` and `N ≥ 1`, `ProcessTurn` assigns band `i` the
half-open range from `i * (H / N)` to `(i + 1) * (H / N)` for `i < N - 1`
and band `N - 1` the range up to `H`, in registry order: bands are
contiguous, non-overlapping, and cover exactly the rows below `H`. -/
theorem broker_partition_exact (H N : Nat) (hH : 1 ≤ H) (hN : 1 ≤ N) :
    (∀ i, i < N → bandStart H N i = i * (H / N)) ∧
    bandStart H N 0 = 0 ∧
    bandEnd H N (N - 1) = H ∧
    (∀ i, i + 1 < N →
      bandEnd H N i = (i + 1) * (H / N) ∧ bandEnd H N i = bandStart H N (i + 1)) ∧
    (∀ i j, i < j → j < N → bandEnd H N i ≤ bandStart H N j) ∧
    (∀ g, g < H ↔ ∃ i, i < N ∧ bandStart H N i ≤ g ∧ g < bandEnd H N i) := by
  refine ⟨fun i _ => rfl, bandStart_zero H N, bandEnd_last H N,
    fun i hi => ⟨bandEnd_of_lt H N i hi, bandStart_succ H N i hi⟩,
    fun i j hij hj => bands_disjoint H N i j hij hj, fun g => ⟨?_, ?_⟩⟩
  · exact bands_cover H N g hN
  · rintro ⟨i, hi, _, hg2⟩
    exact lt_of_lt_of_le hg2 (bandEnd_le H N i hi)

/-- C4 witness: five rows over two workers; the last band absorbs the
remainder. -/
theorem broker_partition_exact_witness :
    bandEnd 5 2 (2 - 1) = 5 ∧ bandStart 5 2 0 = 0 ∧ bandEnd 5 2 0 = bandStart 5 2 1 :=
  ⟨(broker_partition_exact 5 2 (by decide) (by decide)).2.2.1,
   (broker_partition_exact 5 2 (by decide) (by decide)).2.1,
   ((broker_partition_exact 5 2 (by decide) (by decide)).2.2.2.1 0 (by decide)).2⟩

/-- C3 evidence: the local variant's `countLiveNeighbors` does not wrap
horizontally.  On the 3-by-1 grid `[[0, 0, 255]]`, the cell at column 0
has toroidal neighbor count 3 (the live cell at column `W - 1 = 2` is its
wrapped left-hand neighbor), but `countLiveNeighbors` returns 0 because
the out-of-range reads are skipped instead of wrapped.  The worker's
`countNeighborsPart`, by contrast, does wrap: in a height-1 task buffer
whose core row is `[0, 0, 255]`, the cell at column 0 counts the live
cell at column 2. -/
theorem countLiveNeighbors_drops_wraparound :
    countLiveNeighbors [[0, 0, 255]] 0 0 3 1 = 0 ∧
    toroidalNeighbors [[0, 0, 255]] 3 1 0 0 = 3 ∧
    countNeighborsPart [[0, 0, 0], [0, 0, 255], [0, 0, 0]] 1 0 3 = 1 := by
  refine ⟨?_, ?_, ?_⟩ <;> decide

/-- C5: on every valid task the worker maps each band cell by the
standard Game of Life rule: the output cell is alive (255) precisely when
the input cell is alive with 2 or 3 live neighbors, or dead with exactly
3 live neighbors; every output cell is 0 or 255. -/
theorem worker_applies_standard_rule (t : Task)
    (hh : 0 < t.EndY - t.StartY)
    (hlen : t.EndY - t.StartY + 2 ≤ (t.WorldPart.length : Int)) :
    ∃ rows, ProcessPart t = Except.ok rows ∧
      ∀ y x, y < (t.EndY - t.StartY).toNat → x < (t.WorldPart.getD 0 []).length →
        ((rows.getD y []).getD x 0 = 0 ∨ (rows.getD y []).getD x 0 = 255) ∧
        ((rows.getD y []).getD x 0 = 255 ↔
          ((cellAt t.WorldPart (y + 1) x = 255 ∧
            (countNeighborsPart t.WorldPart (y + 1) x (t.WorldPart.getD 0 []).length = 2 ∨
             countNeighborsPart t.WorldPart (y + 1) x (t.WorldPart.getD 0 []).length = 3)) ∨
           (cellAt t.WorldPart (y + 1) x ≠ 255 ∧
            countNeighborsPart t.WorldPart (y + 1) x (t.WorldPart.getD 0 []).length = 3))) := by
  refine ⟨_, processPart_ok_int t hh hlen, ?_⟩
  intro y x hy hx
  rw [getD_map_range _ _ _ hy]
  unfold processRow
  rw [getD_map_range0 _ _ _ hx]
  unfold golRule
  by_cases hcell : cellAt t.WorldPart (y + 1) x = 255
  · rw [if_pos hcell]
    by_cases hn : countNeighborsPart t.WorldPart (y + 1) x (t.WorldPart.getD 0 []).length = 2 ∨
        countNeighborsPart t.WorldPart (y + 1) x (t.WorldPart.getD 0 []).length = 3
    · rw [if_pos hn]
      exact ⟨Or.inr rfl, ⟨fun _ => Or.inl ⟨hcell, hn⟩, fun _ => rfl⟩⟩
    · rw [if_neg hn]
      refine ⟨Or.inl rfl, ⟨fun h0 => absurd h0 (by decide), fun hcases => ?_⟩⟩
      rcases hcases with ⟨_, hn2⟩ | ⟨hne, _⟩
      · exact absurd hn2 hn
      · exact absurd hcell hne
  · rw [if_neg hcell]
    by_cases hn : countNeighborsPart t.WorldPart (y + 1) x (t.WorldPart.getD 0 []).length = 3
    · rw [if_pos hn]
      exact ⟨Or.inr rfl, ⟨fun _ => Or.inr ⟨hcell, hn⟩, fun _ => rfl⟩⟩
    · rw [if_neg hn]
      refine ⟨Or.inl rfl, ⟨fun h0 => absurd h0 (by decide), fun hcases => ?_⟩⟩
      rcases hcases with ⟨hc2, _⟩ | ⟨_, hn2⟩
      · exact absurd hc2 hcell
      · exact absurd hn2 hn

/-- C5 witness: a concrete height-1 task of width 3. -/
theorem worker_applies_standard_rule_witness :
    ∃ rows, ProcessPart ⟨0, 1, [[0, 255, 0], [255, 0, 0], [0, 0, 0]]⟩ = Except.ok rows ∧
      ∀ y x, y < 1 → x < 3 →
        ((rows.getD y []).getD x 0 = 0 ∨ (rows.getD y []).getD x 0 = 255) ∧
        ((rows.getD y []).getD x 0 = 255 ↔
          ((cellAt [[0, 255, 0], [255, 0, 0], [0, 0, 0]] (y + 1) x = 255 ∧
            (countNeighborsPart [[0, 255, 0], [255, 0, 0], [0, 0, 0]] (y + 1) x 3 = 2 ∨
             countNeighborsPart [[0, 255, 0], [255, 0, 0], [0, 0, 0]] (y + 1) x 3 = 3)) ∨
           (cellAt [[0, 255, 0], [255, 0, 0], [0, 0, 0]] (y + 1) x ≠ 255 ∧
            countNeighborsPart [[0, 255, 0], [255, 0, 0], [0, 0, 0]] (y + 1) x 3 = 3))) :=
  worker_applies_standard_rule ⟨0, 1, [[0, 255, 0], [255, 0, 0], [0, 0, 0]]⟩
    (by decide) (by decide)

/-- C6 counterexample: the worker's actual error strings are
"invalid task: height <= 0" and "invalid task: worldPart too small", not
the "invalid task: non-positive height" / "invalid task: insufficient
rows" stated in the claim. -/
theorem worker_error_strings_counterexample :
    ProcessPart ⟨0, 0, []⟩ = Except.error ("invalid task: height <= 0") ∧
    ProcessPart ⟨0, 0, []⟩ ≠ Except.error ("invalid task: non-positive height") ∧
    ProcessPart ⟨0, 1, []⟩ = Except.error ("invalid task: worldPart too small") ∧
    ProcessPart ⟨0, 1, []⟩ ≠ Except.error ("invalid task: insufficient rows") := by
  refine ⟨rfl, by decide, rfl, by decide⟩

/-- C6 amended: `ProcessPart` returns an error precisely when the band
height is nonpositive (string "invalid task: height <= 0") or the buffer
holds fewer than `height + 2` rows (string "invalid task: worldPart too
small"); on every valid task it returns exactly `height` rows, row `y` of
the output computed from buffer row `y + 1`, in band order, with no side
effects (the embedding is a pure function). -/
theorem worker_validation_amended (t : Task) :
    ((∃ msg, ProcessPart t = Except.error msg) ↔
      (t.EndY - t.StartY ≤ 0 ∨ (t.WorldPart.length : Int) < t.EndY - t.StartY + 2)) ∧
    (t.EndY - t.StartY ≤ 0 → ProcessPart t = Except.error ("invalid task: height <= 0")) ∧
    (0 < t.EndY - t.StartY → (t.WorldPart.length : Int) < t.EndY - t.StartY + 2 →
      ProcessPart t = Except.error ("invalid task: worldPart too small")) ∧
    (0 < t.EndY - t.StartY → t.EndY - t.StartY + 2 ≤ (t.WorldPart.length : Int) →
      ∃ rows, ProcessPart t = Except.ok rows ∧
        rows.length = (t.EndY - t.StartY).toNat ∧
        (∀ y, y < (t.EndY - t.StartY).toNat →
          rows.getD y [] = processRow t.WorldPart (y + 1) (t.WorldPart.getD 0 []).length)) := by
  refine ⟨⟨?_, ?_⟩, ?_, ?_, ?_⟩
  · rintro ⟨msg, hmsg⟩
    by_contra hcon
    push_neg at hcon
    rw [processPart_ok_int t (by omega) (by omega)] at hmsg
    simp at hmsg
  · intro hcond
    unfold ProcessPart
    by_cases h1 : t.EndY - t.StartY ≤ 0
    · rw [if_pos h1]
      exact ⟨_, rfl⟩
    · rw [if_neg h1, if_pos (by omega)]
      exact ⟨_, rfl⟩
  · intro h1
    unfold ProcessPart
    rw [if_pos h1]
  · intro h1 h2
    unfold ProcessPart
    rw [if_neg (by omega), if_pos h2]
  · intro h1 h2
    refine ⟨_, processPart_ok_int t h1 h2, ?_, ?_⟩
    · rw [List.length_map, List.length_range]
    · intro y hy
      exact getD_map_range _ _ _ hy

/-- C6 witness: a valid concrete task of height 1. -/
theorem worker_validation_amended_witness :
    (0 : Int) < 1 - 0 ∧ ((1 : Int) - 0 + 2 ≤ ((3 : Nat) : Int)) ∧
    (∃ rows, ProcessPart ⟨0, 1, [[0], [0], [0]]⟩ = Except.ok rows ∧
      rows.length = 1 ∧
      (∀ y, y < 1 → rows.getD y [] = processRow [[0], [0], [0]] (y + 1) 1)) :=
  ⟨by decide, by decide,
    (worker_validation_amended ⟨0, 1, [[0], [0], [0]]⟩).2.2.2 (by decide) (by decide)⟩

/-- C7: with an empty worker registry, the broker's `ProcessTurn` returns
the error "no workers available" and the controller's turn counter (and
its grid) is left unchanged: the distributor returns on a failed call
without incrementing `turn`. -/
theorem broker_no_workers_error (W H : Nat) (world : Grid) (ok : Nat → Bool)
    (s : ControllerState) :
    ProcessTurn ⟨W, H, world⟩ 0 ok = Except.error ("no workers available") ∧
    (runStep W H 0 ok s).turn = s.turn ∧
    (runStep W H 0 ok s).world = s.world := by
  have h1 : ∀ w : Grid, ProcessTurn ⟨W, H, w⟩ 0 ok = Except.error ("no workers available") := by
    intro w
    unfold ProcessTurn
    rw [if_pos rfl]
  refine ⟨h1 world, ?_, ?_⟩ <;> simp [runStep, advanceTurnCtrl, h1]

/-- C8: with at least one registered worker, `ProcessTurn` succeeds even
when some per-band worker calls fail (`ok i = false`): it returns a full
`H`-row grid in which each failed band's rows remain the zero-initialized
all-dead rows while each successful band's rows hold that band's computed
next-generation output. -/
theorem broker_partial_failure_merges (W H N : Nat) (world : Grid) (ok : Nat → Bool)
    (hW : 1 ≤ W) (hN : 1 ≤ N) (hNH : N ≤ H)
    (hlenw : world.length = H) (hrows : ∀ r ∈ world, r.length = W) :
    ∃ grid, ProcessTurn ⟨W, H, world⟩ N ok = Except.ok grid ∧ grid.length = H ∧
      ∀ i, i < N → ∀ g, bandStart H N i ≤ g → g < bandEnd H N i →
        grid.getD g [] = (if ok i then stepRow world W H g else List.replicate W 0) :=
  processTurn_bands W H N world ok hW hN hNH hlenw hrows

/-- C8 witness: a 3-by-3 grid over two workers where the second worker's
call fails; its band stays all-dead. -/
theorem broker_partial_failure_merges_witness :
    ∃ grid, ProcessTurn ⟨3, 3, [[0, 255, 0], [0, 255, 0], [0, 255, 0]]⟩ 2
        (fun i => i == 0) = Except.ok grid ∧ grid.length = 3 ∧
      ∀ i, i < 2 → ∀ g, bandStart 3 2 i ≤ g → g < bandEnd 3 2 i →
        grid.getD g [] = (if i == 0 then stepRow [[0, 255, 0], [0, 255, 0], [0, 255, 0]] 3 3 g
          else List.replicate 3 0) :=
  broker_partial_failure_merges 3 3 2 [[0, 255, 0], [0, 255, 0], [0, 255, 0]]
    (fun i => i == 0) (by decide) (by decide) (by decide) (by decide) (by decide)

lemma advanceTurnCtrl_turn (W H N : Nat) (ok : Nat → Bool) (s next : ControllerState)
    (h : advanceTurnCtrl W H N ok s = Except.ok next) : next.turn = s.turn + 1 := by
  unfold advanceTurnCtrl at h
  cases hp : ProcessTurn ⟨W, H, s.world⟩ N ok with
  | ok nw =>
    rw [hp] at h
    cases h
    rfl
  | error e =>
    rw [hp] at h
    cases h

lemma advanceK_turn (W H N : Nat) (ok : Nat → Bool) :
    ∀ (K : Nat) (s sK : ControllerState),
      advanceK W H N ok K s = some sK → sK.turn = s.turn + K := by
  intro K
  induction K with
  | zero =>
    intro s sK h
    unfold advanceK at h
    cases h
    rfl
  | succ k ih =>
    intro s sK h
    unfold advanceK at h
    cases hp : advanceTurnCtrl W H N ok s with
    | ok next =>
      rw [hp] at h
      have h2 := ih next sK h
      have h3 := advanceTurnCtrl_turn W H N ok s next hp
      omega
    | error e =>
      rw [hp] at h
      cases h

/-- C9: the controller's turn counter starts at 0, changes only by going
from `t` to `t + 1` on a successful `ProcessTurn` call (and stays equal
on a failed one), and after `K` consecutive successful calls it equals
exactly `K`. -/
theorem controller_turn_counter (W H N : Nat) (ok : Nat → Bool) :
    (∀ world, (initController world).turn = 0) ∧
    (∀ s next, advanceTurnCtrl W H N ok s = Except.ok next → next.turn = s.turn + 1) ∧
    (∀ s, (runStep W H N ok s).turn = s.turn ∨ (runStep W H N ok s).turn = s.turn + 1) ∧
    (∀ K world sK, advanceK W H N ok K (initController world) = some sK → sK.turn = K) := by
  refine ⟨fun _ => rfl, advanceTurnCtrl_turn W H N ok, ?_, ?_⟩
  · intro s
    unfold runStep
    cases hp : advanceTurnCtrl W H N ok s with
    | ok next =>
      right
      exact advanceTurnCtrl_turn W H N ok s next hp
    | error e =>
      left
      rfl
  · intro K world sK h
    have h2 := advanceK_turn W H N ok K (initController world) sK h
    simpa [initController] using h2

/-- C9 witness: three successful turns on a 1-by-1 grid with one worker
leave the counter at exactly 3. -/
theorem controller_turn_counter_witness :
    advanceK 1 1 1 (fun _ => true) 3 (initController [[0]]) =
      some { world := [[0]], turn := 3 } ∧
    ({ world := [[0]], turn := 3 } : ControllerState).turn = 3 :=
  ⟨by decide, (controller_turn_counter 1 1 1 (fun _ => true)).2.2.2 3 [[0]]
    { world := [[0]], turn := 3 } (by decide)⟩

/-- C10: under the worker's precondition (positive band height, at least
`height + 2` buffer rows, rows of one common width `W ≥ 1`), every index
`ProcessPart` computes is in bounds: the vertical index `srcY + dy` never
trips the out-of-range guard of `countNeighborsPart` for core rows
`1 ≤ srcY ≤ height`, the wrapped horizontal index is always below `W`,
and `ProcessPart` succeeds. -/
theorem worker_buffer_indices_in_bounds (t : Task) (W : Nat)
    (hh : 0 < t.EndY - t.StartY)
    (hlen : t.EndY - t.StartY + 2 ≤ (t.WorldPart.length : Int))
    (hW : 1 ≤ W) (hrows : ∀ r ∈ t.WorldPart, r.length = W) :
    (∀ srcY : Nat, 1 ≤ srcY → (srcY : Int) ≤ t.EndY - t.StartY → ∀ p ∈ neighborOffsets,
      ¬((srcY : Int) + p.1 < 0 ∨ (t.WorldPart.length : Int) ≤ (srcY : Int) + p.1) ∧
      ((srcY : Int) + p.1).toNat < t.WorldPart.length) ∧
    (∀ x : Nat, x < W → ∀ p ∈ neighborOffsets,
      ((((x : Int) + p.2 + W) % (W : Int))).toNat < W) ∧
    (∃ rows, ProcessPart t = Except.ok rows) := by
  refine ⟨?_, ?_, ⟨_, processPart_ok_int t hh hlen⟩⟩
  · intro srcY h1 h2 p hp
    fin_cases hp
    all_goals
      dsimp only
      exact ⟨by omega, by omega⟩
  · intro x hx p hp
    exact emod_toNat_lt _ W hW

/-- C10 witness: the concrete height-1 task of width 3. -/
theorem worker_buffer_indices_in_bounds_witness :
    ∃ rows, ProcessPart ⟨0, 1, [[0, 255, 0], [255, 0, 0], [0, 0, 0]]⟩ = Except.ok rows :=
  (worker_buffer_indices_in_bounds ⟨0, 1, [[0, 255, 0], [255, 0, 0], [0, 0, 0]]⟩ 3
    (by decide) (by decide) (by decide) (by decide)).2.2

end Dis
